import Mathlib

/-!
Verification of the list-state reconciliation logic of the
user-management / todo CRUD front-end.

The development shallowly embeds the three source variants:
* namespace `UMSApp`  — `src/App.js` (the memoized variant);
* namespace `UMS2`    — the second `App.js` variant (`src/unnamed/part_001`);
* namespace `TodoApp` — the todo context/reducer (`src/unnamed/part_000`).

JavaScript strings are embedded as Lean `String`; `Array.prototype.slice`,
`filter`, `map`, `sort` become their list counterparts; the stable comparator
sort is embedded as a stable insertion sort; `localeCompare` / `<` on strings
is embedded as code-unit lexicographic comparison (accurate on the ASCII data
these components handle); `async` handlers become pure functions from the
pre-state and the gateway response (an `Except`) to the post-state together
with a record of which gateway request, if any, was issued.
-/

/-- Embedding of `Array.prototype.slice(a, b)` (for `a ≤ b` in range). -/
def jsSlice (l : List α) (a b : Nat) : List α :=
  (l.drop a).take (b - a)

/-- Ceiling division on naturals, the embedding of `Math.ceil(a / b)`
for natural `a` and positive `b`. -/
def ceilDivNat (a b : Nat) : Nat :=
  (a + b - 1) / b

/-- Decides whether `needle` occurs at the head of `hay`. -/
def isSubAt : List Char → List Char → Bool
  | [], _ => true
  | _ :: _, [] => false
  | a :: as, b :: bs => a == b && isSubAt as bs

/-- Decides whether `needle` occurs contiguously anywhere in `hay`:
the embedding of `String.prototype.includes`. -/
def containsSub (needle : List Char) : List Char → Bool
  | [] => needle.isEmpty
  | c :: rest => isSubAt needle (c :: rest) || containsSub needle rest

/-- Embedding of `hay.includes(needle)` on strings. -/
def strIncludes (hay needle : String) : Bool :=
  containsSub needle.toList hay.toList

/-- Code-unit lexicographic `≤` on character lists: the embedding of the
JavaScript string ordering used by the sort comparators (and of
`localeCompare` restricted to ASCII data). -/
def lexLE : List Char → List Char → Bool
  | [], _ => true
  | _ :: _, [] => false
  | a :: as, b :: bs => if a = b then lexLE as bs else decide (a < b)

/-- Embedding of `s ≤ t` on JavaScript strings. -/
def strLE (s t : String) : Bool :=
  lexLE s.toList t.toList

/-- Embedding of `String.prototype.toLowerCase` (written on the character
list so that it evaluates by kernel reduction). -/
def lowerStr (s : String) : String :=
  String.mk (s.data.map Char.toLower)

/-- Drops leading and trailing whitespace from a character list. -/
def trimChars (l : List Char) : List Char :=
  ((l.dropWhile Char.isWhitespace).reverse.dropWhile Char.isWhitespace).reverse

/-- Embedding of `String.prototype.trim`. -/
def jsTrim (s : String) : String :=
  String.mk (trimChars s.data)

/-- A user record.  The optional display-only fields (`username`, `phone`,
`website`, `company`, `address`) never reach the reconciliation logic and
are omitted. -/
structure User where
  id : Nat
  name : String
  email : String
  deriving DecidableEq

/-- The `newUser` form value: `{ name: "", email: "" }` initially. -/
structure NewUser where
  name : String
  email : String
  deriving DecidableEq

/-- The `sortConfig.key` select: `'name'` or `'email'`. -/
inductive SortKey
  | name
  | email
  deriving DecidableEq

/-- The `sortConfig.direction` toggle: `'asc'` or `'desc'`. -/
inductive SortDir
  | asc
  | desc
  deriving DecidableEq

/-- The `sortConfig` state field. -/
structure SortConfig where
  key : SortKey
  direction : SortDir
  deriving DecidableEq

/-- Embedding of `a[sortConfig.key]?.toLowerCase() || ''`: both fields are
always present in the model, and `|| ''` is the identity on the
already-total lowercased field. -/
def keyVal (k : SortKey) (u : User) : String :=
  lowerStr (match k with
            | SortKey.name => u.name
            | SortKey.email => u.email)

/-- The sort comparator of both variants as a boolean `≤`:
`a` may precede `b` exactly when the comparator value is `≤ 0`
(`asc`: `valueA ≤ valueB`; `desc`: `valueB ≤ valueA`). -/
def userLE (cfg : SortConfig) (a b : User) : Bool :=
  match cfg.direction with
  | SortDir.asc => strLE (keyVal cfg.key a) (keyVal cfg.key b)
  | SortDir.desc => strLE (keyVal cfg.key b) (keyVal cfg.key a)

/-- Inserts `x` into `l` before the first element `y` with `le x y`. -/
def insertLE (le : α → α → Bool) (x : α) : List α → List α
  | [] => [x]
  | y :: ys => if le x y then x :: y :: ys else y :: insertLE le x ys

/-- Stable insertion sort with a boolean comparator: the embedding of
`Array.prototype.sort(comparator)` (stable per ES2019). -/
def sortLE (le : α → α → Bool) : List α → List α
  | [] => []
  | x :: xs => insertLE le x (sortLE le xs)

/-- The search predicate of both variants:
`name` or `email` contains the search term case-insensitively. -/
def matchesSearch (term : String) (u : User) : Bool :=
  strIncludes (lowerStr u.name) (lowerStr term) || strIncludes (lowerStr u.email) (lowerStr term)

/-- The character class `[^\s@]` of the email regular expression. -/
def emailChar (c : Char) : Bool :=
  !c.isWhitespace && c != '@'

/-- Splits a character list at its first `'@'`, returning the (necessarily
`'@'`-free) part before it and the part after it. -/
def splitAtSign : List Char → Option (List Char × List Char)
  | [] => none
  | c :: cs =>
    if c = '@' then some ([], cs)
    else match splitAtSign cs with
      | none => none
      | some (a, b) => some (c :: a, b)

/-- Decides whether `rest` matches `[^\s@]+\.[^\s@]+`: all characters in the
class, with a `'.'` that has at least one character before and after it. -/
def domainOk (rest : List Char) : Bool :=
  rest.all emailChar &&
    (List.range rest.length).any fun i =>
      decide (0 < i) && decide (i + 1 < rest.length) && (rest.getD i ' ' == '.')

/-- Embedding of `isValidEmail`, the test of `/^[^\s@]+@[^\s@]+\.[^\s@]+$/`
shared verbatim by both user variants: a non-empty `'@'`-free, space-free
local part, one `'@'`, and a domain part matching `[^\s@]+\.[^\s@]+`. -/
def isValidEmail (s : String) : Bool :=
  match splitAtSign s.toList with
  | none => false
  | some (lo, rest) => !lo.isEmpty && lo.all emailChar && domainOk rest

/-- Embedding of `JSON.stringify` on one user record (the records handled
here never need character escaping). -/
def userJson (u : User) : String :=
  "\x7b\"id\":" ++ toString u.id ++ ",\"name\":\"" ++ u.name ++
    "\",\"email\":\"" ++ u.email ++ "\"\x7d"

/-- Embedding of `JSON.stringify(users)`. -/
def serializeUsers (l : List User) : String :=
  "[" ++ String.intercalate "," (l.map userJson) ++ "]"

/-- The slice of component state touched by the mutation handlers.  The
display-only fields (`loading`, `searchTerm`, `currentPage`, `usersPerPage`,
`selectedUser`, `sortConfig`) never interact with them and are omitted;
the projection is modelled separately as a pure function of its inputs,
exactly as the source computes it from state on each render. -/
structure AppState where
  users : List User
  newUser : NewUser
  editingUser : Option User
  error : String
  userToDelete : Option Nat
  processing : Bool
  deriving DecidableEq

/-- The remote-gateway request issued by one handler run, `GwCall.none`
when the handler returned before reaching the gateway. -/
inductive GwCall
  | none
  | create (u : NewUser)
  | update (id : Nat) (u : User)
  | delete (id : Option Nat)
  deriving DecidableEq

namespace UMSApp

/-- Lines 109–123 of `src/App.js`: filter by the search term, sort by the
comparator, then `slice((currentPage-1)*usersPerPage, currentPage*usersPerPage)`.
Note the slice: this value is already one page window. -/
def filteredUsers (users : List User) (term : String) (cfg : SortConfig)
    (currentPage usersPerPage : Nat) : List User :=
  jsSlice (sortLE (userLE cfg) (users.filter (matchesSearch term)))
    ((currentPage - 1) * usersPerPage) (currentPage * usersPerPage)

/-- Line 126 of `src/App.js`:
`Math.ceil(filteredUsers.length / usersPerPage)` — computed from the
already-sliced `filteredUsers`. -/
def totalPages (users : List User) (term : String) (cfg : SortConfig)
    (currentPage usersPerPage : Nat) : Nat :=
  ceilDivNat (filteredUsers users term cfg currentPage usersPerPage).length usersPerPage

/-- Lines 127–130 of `src/App.js`:
`filteredUsers.slice(start, start + usersPerPage)` with
`start = (currentPage - 1) * usersPerPage` — a second slice applied to the
already-sliced `filteredUsers`. -/
def paginatedUsers (users : List User) (term : String) (cfg : SortConfig)
    (currentPage usersPerPage : Nat) : List User :=
  jsSlice (filteredUsers users term cfg currentPage usersPerPage)
    ((currentPage - 1) * usersPerPage)
    ((currentPage - 1) * usersPerPage + usersPerPage)

/-- Lines 141–145 of `src/App.js` (identically lines 81–85 of the second
variant): the `useEffect` keyed on `[users]` writes
`JSON.stringify(users)` to the `'users'` slot only when `users.length > 0`;
otherwise the slot keeps its previous value. -/
def persistUsers (users : List User) (slot : Option String) : Option String :=
  if users.length > 0 then some (serializeUsers users) else slot

/-- Lines 164–194 of `src/App.js` (`handleAddUser`): set `processing`,
validate (a thrown validation error is caught and stored in `error`),
otherwise call the gateway and on success append the returned record and
clear the form; on gateway failure store the message; finally clear
`processing`. -/
def handleAddUser (s : AppState) (gw : Except String User) : AppState × GwCall :=
  let s1 := { s with processing := true }
  let r :=
    if jsTrim s1.newUser.name = "" then
      ({ s1 with error := "Name is required" }, GwCall.none)
    else if jsTrim s1.newUser.email = "" then
      ({ s1 with error := "Email is required" }, GwCall.none)
    else if !isValidEmail s1.newUser.email then
      ({ s1 with error := "Invalid email format" }, GwCall.none)
    else
      match gw with
      | Except.ok added =>
        ({ s1 with users := s1.users ++ [added], newUser := ⟨"", ""⟩, error := "" },
          GwCall.create s1.newUser)
      | Except.error m =>
        ({ s1 with error := m }, GwCall.create s1.newUser)
  ({ r.1 with processing := false }, r.2)

/-- Lines 196–229 of `src/App.js` (`handleUpdateUser`): set `processing`,
validate the in-edit record (`editingUser?.name` is falsy when the record
is absent or the field empty; a thrown error is caught and only toasted, so
the state is untouched), otherwise call the gateway and on success map the
returned record over the store by the returned id; finally clear
`processing`. -/
def handleUpdateUser (s : AppState) (gw : Except String User) : AppState × GwCall :=
  let s1 := { s with processing := true }
  let r :=
    match s1.editingUser with
    | Option.none => (s1, GwCall.none)
    | some eu =>
      if eu.name = "" || eu.email = "" then (s1, GwCall.none)
      else if !isValidEmail eu.email then (s1, GwCall.none)
      else
        match gw with
        | Except.ok updated =>
          let us := s1.users.map (fun (u : User) => if u.id = updated.id then updated else u)
          ({ s1 with users := us, editingUser := Option.none }, GwCall.update eu.id eu)
        | Except.error _ => (s1, GwCall.update eu.id eu)
  ({ r.1 with processing := false }, r.2)

/-- Lines 231–254 of `src/App.js` (`handleConfirmDelete`): set `processing`,
call the gateway with `userToDelete` unconditionally, on success filter the
record out of the store and clear `userToDelete` (a gateway failure is only
toasted); finally clear `processing`. -/
def handleConfirmDelete (s : AppState) (gw : Except String Unit) : AppState × GwCall :=
  let s1 := { s with processing := true }
  let r :=
    match gw with
    | Except.ok _ =>
      ({ s1 with
          users := s1.users.filter (fun (u : User) => some u.id != s1.userToDelete),
          userToDelete := Option.none },
        GwCall.delete s1.userToDelete)
    | Except.error _ => (s1, GwCall.delete s1.userToDelete)
  ({ r.1 with processing := false }, r.2)

end UMSApp

namespace UMS2

/-- Lines 53–56 of the second variant: the total filtered count,
`users.filter(matches).length` over the full store — no sort, no slice. -/
def totalFilteredUsers (users : List User) (term : String) : Nat :=
  (users.filter (matchesSearch term)).length

/-- Lines 58–70 of the second variant: sort by the comparator, filter by the
search term, then `slice((currentPage-1)*usersPerPage, currentPage*usersPerPage)`.
This is the list the component renders: one page window of the
filtered-and-sorted sequence. -/
def filteredUsers (users : List User) (term : String) (cfg : SortConfig)
    (currentPage usersPerPage : Nat) : List User :=
  jsSlice ((sortLE (userLE cfg) users).filter (matchesSearch term))
    ((currentPage - 1) * usersPerPage) (currentPage * usersPerPage)

/-- Lines 99–126 of the second variant (`handleAddUser`): set `processing`,
compute the first failing validation message; on a validation failure store
it, clear `processing` and return; otherwise call the gateway, reconcile on
success or store a fixed message on failure, and clear `processing`. -/
def handleAddUser (s : AppState) (gw : Except String User) : AppState × GwCall :=
  let s1 := { s with processing := true }
  let newError :=
    if jsTrim s1.newUser.name = "" then "Name is required"
    else if jsTrim s1.newUser.email = "" then "Email is required"
    else if !isValidEmail s1.newUser.email then "Invalid email format"
    else ""
  if newError ≠ "" then
    ({ s1 with error := newError, processing := false }, GwCall.none)
  else
    match gw with
    | Except.ok added =>
      let s2 := { s1 with users := s1.users ++ [added], newUser := ⟨"", ""⟩, error := "" }
      ({ s2 with processing := false }, GwCall.create s1.newUser)
    | Except.error _ =>
      let s2 := { s1 with error := "Failed to add user. Please try again." }
      ({ s2 with processing := false }, GwCall.create s1.newUser)

/-- Lines 128–152 of the second variant (`handleUpdateUser`): set
`processing`; on a validation failure store the message and return — the
early `return` skips the final dispatch, so `processing` stays `true`
(reading `.name` of an absent record likewise aborts before any further
dispatch).  Only the gateway paths reach the final
`processing: false` dispatch. -/
def handleUpdateUser (s : AppState) (gw : Except String User) : AppState × GwCall :=
  let s1 := { s with processing := true }
  match s1.editingUser with
  | Option.none => (s1, GwCall.none)
  | some eu =>
    if eu.name = "" || eu.email = "" then
      ({ s1 with error := "Please fill all fields" }, GwCall.none)
    else if !isValidEmail eu.email then
      ({ s1 with error := "Please enter a valid email address" }, GwCall.none)
    else
      match gw with
      | Except.ok updated =>
        let us := s1.users.map (fun (u : User) => if u.id = eu.id then updated else u)
        let s2 := { s1 with users := us, editingUser := Option.none, error := "" }
        ({ s2 with processing := false }, GwCall.update eu.id eu)
      | Except.error _ =>
        let s2 := { s1 with error := "Failed to update user. Please try again." }
        ({ s2 with processing := false }, GwCall.update eu.id eu)

/-- Lines 154–167 of the second variant (`handleConfirmDelete`): set
`processing`, call the gateway with `userToDelete`, on success filter the
record out and clear `userToDelete` (a failure is only toasted); finally
clear `processing`. -/
def handleConfirmDelete (s : AppState) (gw : Except String Unit) : AppState × GwCall :=
  let s1 := { s with processing := true }
  let r :=
    match gw with
    | Except.ok _ =>
      ({ s1 with
          users := s1.users.filter (fun (u : User) => some u.id != s1.userToDelete),
          userToDelete := Option.none },
        GwCall.delete s1.userToDelete)
    | Except.error _ => (s1, GwCall.delete s1.userToDelete)
  ({ r.1 with processing := false }, r.2)

end UMS2

namespace TodoApp

/-- A todo record: `{ id, text, completed, category }`. -/
structure Todo where
  id : Nat
  text : String
  completed : Bool
  category : String
  deriving DecidableEq

/-- The action union handled by `todoReducer`. -/
inductive TodoAction
  | add (id : Nat) (text : String) (category : String)
  | delete (id : Nat)
  | toggle (id : Nat)
  | reorder (payload : List Todo)
  deriving DecidableEq

/-- Lines 16–41 of the todo variant (`todoReducer`): `ADD` appends a fresh
uncompleted record (its `Date.now()` id is a parameter here), `DELETE`
filters by id, `TOGGLE` maps the flip of `completed` over the matching id,
`REORDER` returns the payload unchanged, and any other action returns the
state. -/
def todoReducer (state : List Todo) : TodoAction → List Todo
  | TodoAction.add id text category =>
    state ++ [{ id := id, text := text, completed := false, category := category }]
  | TodoAction.delete id => state.filter fun t => t.id != id
  | TodoAction.toggle id =>
    state.map fun t => if t.id = id then { t with completed := !t.completed } else t
  | TodoAction.reorder payload => payload

/-- Embedding of `JSON.stringify` on one todo record. -/
def todoJson (t : Todo) : String :=
  "\x7b\"id\":" ++ toString t.id ++ ",\"text\":\"" ++ t.text ++
    "\",\"completed\":" ++ (if t.completed then "true" else "false") ++
    ",\"category\":\"" ++ t.category ++ "\"\x7d"

/-- Embedding of `JSON.stringify(todos)`. -/
def serializeTodos (l : List Todo) : String :=
  "[" ++ String.intercalate "," (l.map todoJson) ++ "]"

/-- Lines 47–49 of the todo variant: the provider `useEffect` keyed on
`[todos]` writes `JSON.stringify(todos)` to the `'todos'` slot
unconditionally, the empty list included. -/
def persistTodos (todos : List Todo) (_slot : Option String) : Option String :=
  some (serializeTodos todos)

/-- Modelled from the spec: the add form that dispatches `ADD` is not under
`src/` (only the reducer is); per §3 — `text: string (unique,
case-insensitive, among active todos)` and the invariant "no two records
may have case-insensitively equal `text`" — it rejects a submission whose
text is case-insensitively equal to an existing todo's text, dispatching
`ADD` only otherwise. -/
def addTodoGuarded (state : List Todo) (id : Nat) (text category : String) : List Todo :=
  if state.any (fun t => lowerStr t.text == lowerStr text) then state
  else todoReducer state (TodoAction.add id text category)

/-- No two records have case-insensitively equal `text`. -/
def UniqueTexts (l : List Todo) : Prop :=
  l.Pairwise fun a b => lowerStr a.text ≠ lowerStr b.text

/-- The store states reachable through the app's operations, starting from
the empty list.  `ADD` goes through the form guard `addTodoGuarded`
(modelled from the spec, see there); for `REORDER`, the drag-and-drop
widget is likewise not under `src/` and, per §4.2/§9 of the spec, passes a
reordering of the (possibly category-filtered, hence sublist) currently
displayed records. -/
inductive ReachableTodos : List Todo → Prop
  | init : ReachableTodos []
  | add (s : List Todo) (id : Nat) (text category : String) :
      ReachableTodos s → ReachableTodos (addTodoGuarded s id text category)
  | del (s : List Todo) (id : Nat) :
      ReachableTodos s → ReachableTodos (todoReducer s (TodoAction.delete id))
  | toggle (s : List Todo) (id : Nat) :
      ReachableTodos s → ReachableTodos (todoReducer s (TodoAction.toggle id))
  | reorder (s p l : List Todo) :
      ReachableTodos s → p.Perm l → l.Sublist s →
      ReachableTodos (todoReducer s (TodoAction.reorder p))

end TodoApp

section Lemmas

/-- Inserting with `insertLE` permutes to consing. -/
theorem insertLE_perm (le : α → α → Bool) (x : α) (l : List α) :
    (insertLE le x l).Perm (x :: l) := by
  induction l with
  | nil => exact List.Perm.refl _
  | cons y ys ih =>
    simp only [insertLE]
    split
    · exact List.Perm.refl _
    · exact (ih.cons y).trans (List.Perm.swap x y ys)

/-- The embedded comparator sort permutes its input. -/
theorem sortLE_perm (le : α → α → Bool) (l : List α) : (sortLE le l).Perm l := by
  induction l with
  | nil => exact List.Perm.refl _
  | cons x xs ih => exact (insertLE_perm le x (sortLE le xs)).trans (ih.cons x)

/-- Ceiling division covers: `a ≤ ⌈a/b⌉ * b` for positive `b`. -/
theorem le_ceilDivNat_mul (a b : Nat) (hb : 0 < b) : a ≤ ceilDivNat a b * b := by
  match a with
  | 0 => exact Nat.zero_le _
  | n + 1 =>
    have h1 : ceilDivNat (n + 1) b = n / b + 1 := by
      show (n + 1 + b - 1) / b = n / b + 1
      have h2 : n + 1 + b - 1 = n + b := by omega
      rw [h2, Nat.add_div_right n hb]
    rw [h1]
    exact (Nat.div_lt_iff_lt_mul hb).mp (Nat.lt_succ_self _)

/-- Concatenating the first `k` windows of width `p` recovers the first
`k * p` elements. -/
theorem flatten_slices (l : List α) (p : Nat) (k : Nat) :
    ((List.range k).map fun i => jsSlice l (i * p) ((i + 1) * p)).flatten
      = l.take (k * p) := by
  induction k with
  | zero => simp
  | succ k ih =>
    rw [List.range_succ, List.map_append, List.flatten_append, ih]
    simp only [List.map_cons, List.map_nil, List.flatten_cons, List.flatten_nil,
      List.append_nil, jsSlice]
    have hb : (k + 1) * p - k * p = p := by
      rw [Nat.succ_mul]
      omega
    rw [hb, Nat.succ_mul, List.take_add]

end Lemmas

/-- Twelve concrete user records, already in ascending `name` order. -/
def twelveUsers : List User :=
  [⟨1, "a", "a@x.io"⟩, ⟨2, "b", "b@x.io"⟩, ⟨3, "c", "c@x.io"⟩, ⟨4, "d", "d@x.io"⟩,
   ⟨5, "e", "e@x.io"⟩, ⟨6, "f", "f@x.io"⟩, ⟨7, "g", "g@x.io"⟩, ⟨8, "h", "h@x.io"⟩,
   ⟨9, "i", "i@x.io"⟩, ⟨10, "j", "j@x.io"⟩, ⟨11, "k", "k@x.io"⟩, ⟨12, "l", "l@x.io"⟩]

/-- Ascending sort by name. -/
def cfgName : SortConfig := ⟨SortKey.name, SortDir.asc⟩

/-- C1: the pages produced by the List View Projection partition the
filtered-and-sorted sequence with no overlap and no gaps.  Proved for the
second variant, whose rendered list is the page window: concatenating pages
`1..⌈totalFiltered/size⌉` in order is exactly the filtered-sorted sequence,
and over 12 filtered records with page size 5, page 1 yields records 1–5
and page 3 yields records 11–12.  In `src/App.js`, however, `paginatedUsers`
slices the already-sliced `filteredUsers` a second time, so at the same
input page 3 renders empty instead of records 11–12: the claim fails on
that variant (the final conjunct evaluates the code at the failing input). -/
theorem c1_pagination_partition :
    (∀ (users : List User) (term : String) (cfg : SortConfig) (p : Nat),
      (((List.range (ceilDivNat (UMS2.totalFilteredUsers users term) (p + 1))).map
        fun i => UMS2.filteredUsers users term cfg (i + 1) (p + 1)).flatten)
        = (sortLE (userLE cfg) users).filter (matchesSearch term))
    ∧ UMS2.filteredUsers twelveUsers "" cfgName 1 5 = twelveUsers.take 5
    ∧ UMS2.filteredUsers twelveUsers "" cfgName 3 5 = twelveUsers.drop 10
    ∧ UMSApp.paginatedUsers twelveUsers "" cfgName 3 5 = [] := by
  refine ⟨?_, by decide, by decide, by decide⟩
  intro users term cfg p
  have hperm : ((sortLE (userLE cfg) users).filter (matchesSearch term)).Perm
      (users.filter (matchesSearch term)) :=
    (sortLE_perm (userLE cfg) users).filter (matchesSearch term)
  have hlen : UMS2.totalFilteredUsers users term
      = ((sortLE (userLE cfg) users).filter (matchesSearch term)).length := by
    rw [UMS2.totalFilteredUsers, hperm.length_eq]
  have hpage : ∀ i ∈ List.range (ceilDivNat (UMS2.totalFilteredUsers users term) (p + 1)),
      UMS2.filteredUsers users term cfg (i + 1) (p + 1)
        = jsSlice ((sortLE (userLE cfg) users).filter (matchesSearch term))
            (i * (p + 1)) ((i + 1) * (p + 1)) := by
    intro i _
    simp [UMS2.filteredUsers]
  rw [List.map_congr_left hpage, flatten_slices]
  apply List.take_of_length_le
  rw [← hlen]
  exact le_ceilDivNat_mul _ _ (Nat.succ_pos p)

/-- C4: the total-filtered-count and total-page-count must derive from the
length of the filtered-and-sorted sequence.  The second variant conforms:
`totalFilteredUsers` equals the filtered-sorted length for every sort
configuration (and depends on the search filter, not the full store).
`src/App.js` does not: its `totalPages` divides the length of the
already-sliced page window, so at 12 matching records with page size 5 it
reports 1 page where the filtered-sorted length gives 3 (the last two
conjuncts evaluate the code at the failing input). -/
theorem c4_counts_from_filtered_length :
    (∀ (users : List User) (term : String) (cfg : SortConfig),
      UMS2.totalFilteredUsers users term
        = ((sortLE (userLE cfg) users).filter (matchesSearch term)).length)
    ∧ UMS2.totalFilteredUsers twelveUsers "b" = 1
    ∧ ceilDivNat (UMS2.totalFilteredUsers twelveUsers "") 5 = 3
    ∧ UMSApp.totalPages twelveUsers "" cfgName 1 5 = 1 := by
  refine ⟨?_, by decide, by decide, by decide⟩
  intro users term cfg
  rw [UMS2.totalFilteredUsers,
    ((sortLE_perm (userLE cfg) users).filter (matchesSearch term)).length_eq]

/-- An edit state whose in-edit record has an empty name: the second
variant's update handler aborts on it before its final dispatch. -/
def stuckEditState : AppState :=
  ⟨[⟨1, "a", "a@x.io"⟩], ⟨"", ""⟩, some ⟨1, "", "a@x.io"⟩, "", Option.none, false⟩

/-- C3: every mutation handler must end with the `processing` flag false so
the triggering control is re-enabled.  All three `src/App.js` handlers do,
for every state and every gateway outcome, and so do the second variant's
add and delete handlers.  The second variant's `handleUpdateUser`, however,
returns early on a validation failure without the final
`processing: false` dispatch: at a state whose in-edit record has an empty
name it terminates with `processing = true`, permanently disabling the Save
control — the code bug behind this claim's failure (final conjunct). -/
theorem c3_processing_reset :
    (∀ (s : AppState) (gw : Except String User),
      (UMSApp.handleAddUser s gw).1.processing = false)
    ∧ (∀ (s : AppState) (gw : Except String User),
      (UMSApp.handleUpdateUser s gw).1.processing = false)
    ∧ (∀ (s : AppState) (gw : Except String Unit),
      (UMSApp.handleConfirmDelete s gw).1.processing = false)
    ∧ (∀ (s : AppState) (gw : Except String User),
      (UMS2.handleAddUser s gw).1.processing = false)
    ∧ (∀ (s : AppState) (gw : Except String Unit),
      (UMS2.handleConfirmDelete s gw).1.processing = false)
    ∧ (UMS2.handleUpdateUser stuckEditState (Except.ok ⟨1, "b", "b@x.io"⟩)).1.processing
        = true := by
  refine ⟨fun s gw => rfl, fun s gw => rfl, fun s gw => rfl, ?_, fun s gw => rfl, by decide⟩
  intro s gw
  simp only [UMS2.handleAddUser]
  repeat' split
  all_goals rfl

/-- C7: when the gateway call fails, every mutation handler of both user
variants leaves the record store exactly as it was — no partial application
of the failed add, update or delete. -/
theorem c7_gateway_failure_preserves_store :
    ∀ (s : AppState) (m : String),
      (UMSApp.handleAddUser s (Except.error m)).1.users = s.users
      ∧ (UMSApp.handleUpdateUser s (Except.error m)).1.users = s.users
      ∧ (UMSApp.handleConfirmDelete s (Except.error m)).1.users = s.users
      ∧ (UMS2.handleAddUser s (Except.error m)).1.users = s.users
      ∧ (UMS2.handleUpdateUser s (Except.error m)).1.users = s.users
      ∧ (UMS2.handleConfirmDelete s (Except.error m)).1.users = s.users := by
  intro s m
  refine ⟨?_, ?_, rfl, ?_, ?_, rfl⟩ <;>
    simp only [UMSApp.handleAddUser, UMSApp.handleUpdateUser, UMS2.handleAddUser,
      UMS2.handleUpdateUser] <;>
    (repeat' split) <;> rfl

/-- A form state whose name field is whitespace-only. -/
def wsNameState : AppState :=
  ⟨[⟨1, "a", "a@x.io"⟩], ⟨"   ", "ok@x.io"⟩, Option.none, "", Option.none, false⟩

/-- C8: an add with an empty or whitespace-only name fails validation in
both user variants: the record store is unchanged, no gateway request is
issued, and the field-specific message `"Name is required"` is stored. -/
theorem c8_add_empty_name_rejected :
    ∀ (s : AppState) (gw : Except String User),
      jsTrim s.newUser.name = "" →
        (UMSApp.handleAddUser s gw).1.users = s.users
        ∧ (UMSApp.handleAddUser s gw).2 = GwCall.none
        ∧ (UMSApp.handleAddUser s gw).1.error = "Name is required"
        ∧ (UMS2.handleAddUser s gw).1.users = s.users
        ∧ (UMS2.handleAddUser s gw).2 = GwCall.none
        ∧ (UMS2.handleAddUser s gw).1.error = "Name is required" := by
  intro s gw h
  refine ⟨?_, ?_, ?_, ?_, ?_, ?_⟩ <;>
    simp [UMSApp.handleAddUser, UMS2.handleAddUser, h]

/-- C8 witness: the rejection at a concrete whitespace-only name. -/
theorem c8_add_empty_name_rejected_witness :
    (UMSApp.handleAddUser wsNameState (Except.ok ⟨2, "b", "b@x.io"⟩)).1.users
        = wsNameState.users
    ∧ (UMSApp.handleAddUser wsNameState (Except.ok ⟨2, "b", "b@x.io"⟩)).2 = GwCall.none
    ∧ (UMSApp.handleAddUser wsNameState (Except.ok ⟨2, "b", "b@x.io"⟩)).1.error
        = "Name is required"
    ∧ (UMS2.handleAddUser wsNameState (Except.ok ⟨2, "b", "b@x.io"⟩)).1.users
        = wsNameState.users
    ∧ (UMS2.handleAddUser wsNameState (Except.ok ⟨2, "b", "b@x.io"⟩)).2 = GwCall.none
    ∧ (UMS2.handleAddUser wsNameState (Except.ok ⟨2, "b", "b@x.io"⟩)).1.error
        = "Name is required" :=
  c8_add_empty_name_rejected wsNameState (Except.ok ⟨2, "b", "b@x.io"⟩) (by decide)

/-- C2 counterexample: a store change to the empty list does not overwrite
the persisted slot — the user variants gate the mirror on
`users.length > 0`, so a stale prior value survives and differs from the
serialization of the (empty) current record set. -/
theorem c2_empty_store_not_mirrored :
    UMSApp.persistUsers [] (some "stale") ≠ some (serializeUsers []) := by
  decide

/-- C2 as amended: after a store change the persisted slot holds the
serialization of the full current record set whenever the set is non-empty
(user variants; a change to the empty list skips the write), and
unconditionally — empty list included — in the todo variant. -/
theorem c2_mirror_overwrites :
    (∀ (users : List User) (slot : Option String), users ≠ [] →
      UMSApp.persistUsers users slot = some (serializeUsers users))
    ∧ ∀ (todos : List TodoApp.Todo) (slot : Option String),
        TodoApp.persistTodos todos slot = some (TodoApp.serializeTodos todos) := by
  refine ⟨?_, fun todos slot => rfl⟩
  intro users slot h
  unfold UMSApp.persistUsers
  rw [if_pos]
  exact List.length_pos.mpr h

/-- A concrete user record for witnesses. -/
def sampleUser : User := ⟨1, "a", "a@x.io"⟩

/-- C2 witness: the mirror at a concrete non-empty store. -/
theorem c2_mirror_overwrites_witness :
    UMSApp.persistUsers [sampleUser] Option.none = some (serializeUsers [sampleUser]) :=
  c2_mirror_overwrites.1 [sampleUser] Option.none (by decide)

/-- A concrete todo record. -/
def todoA : TodoApp.Todo := ⟨1, "a", false, "General"⟩

/-- A second concrete todo record. -/
def todoB : TodoApp.Todo := ⟨2, "b", false, "Work"⟩

/-- C6 counterexample: `REORDER` replaces the store with the payload without
any validation, so a payload omitting a record drops it — the record set is
not unchanged. -/
theorem c6_reorder_drops_records :
    TodoApp.todoReducer [todoA, todoB] (TodoApp.TodoAction.reorder [todoA]) = [todoA]
    ∧ todoB ∈ [todoA, todoB]
    ∧ todoB ∉ TodoApp.todoReducer [todoA, todoB] (TodoApp.TodoAction.reorder [todoA]) := by
  exact ⟨rfl, by decide, by decide⟩

/-- C6 as amended: after `REORDER` the store order is exactly the given
sequence; the reducer performs no permutation validation, so the record set
is unchanged precisely when the given sequence happens to be a permutation
of the prior store (in which case membership is preserved both ways). -/
theorem c6_reorder_replaces_exactly :
    ∀ (s p : List TodoApp.Todo),
      TodoApp.todoReducer s (TodoApp.TodoAction.reorder p) = p
      ∧ (p.Perm s →
          ∀ t, t ∈ TodoApp.todoReducer s (TodoApp.TodoAction.reorder p) ↔ t ∈ s) := by
  intro s p
  exact ⟨rfl, fun hp t => hp.mem_iff⟩

/-- C6 witness: the amended claim at a concrete permutation. -/
theorem c6_reorder_replaces_exactly_witness :
    TodoApp.todoReducer [todoA, todoB] (TodoApp.TodoAction.reorder [todoB, todoA])
        = [todoB, todoA]
    ∧ (todoB ∈ TodoApp.todoReducer [todoA, todoB] (TodoApp.TodoAction.reorder [todoB, todoA])
        ↔ todoB ∈ [todoA, todoB]) :=
  ⟨(c6_reorder_replaces_exactly [todoA, todoB] [todoB, todoA]).1,
    (c6_reorder_replaces_exactly [todoA, todoB] [todoB, todoA]).2
      (List.Perm.swap todoA todoB []) todoB⟩

/-- C10: `TOGGLE` flips exactly the `completed` flag of the todo at the
matching id, preserving its `id`, `text` and `category`, preserves every
position (hence order and length), leaves todos with other ids untouched,
and is a no-op on the list when no todo has the id. -/
theorem c10_toggle_frame :
    ∀ (l : List TodoApp.Todo) (id : Nat),
      ((∀ t ∈ l, t.id ≠ id) → TodoApp.todoReducer l (TodoApp.TodoAction.toggle id) = l)
      ∧ (TodoApp.todoReducer l (TodoApp.TodoAction.toggle id)).length = l.length
      ∧ ∀ (i : Nat) (t : TodoApp.Todo), l[i]? = some t →
          (t.id ≠ id → (TodoApp.todoReducer l (TodoApp.TodoAction.toggle id))[i]? = some t)
          ∧ (t.id = id → (TodoApp.todoReducer l (TodoApp.TodoAction.toggle id))[i]?
              = some ⟨t.id, t.text, !t.completed, t.category⟩) := by
  intro l id
  refine ⟨?_, ?_, ?_⟩
  · induction l with
    | nil => intro _; rfl
    | cons x xs ih =>
      intro h
      simp only [TodoApp.todoReducer]
      rw [List.map_cons, if_neg (h x (List.mem_cons_self x xs))]
      exact congrArg (List.cons x) (ih fun t ht => h t (List.mem_cons_of_mem x ht))
  · exact List.length_map l _
  · intro i t ht
    constructor
    · intro hne
      simp only [TodoApp.todoReducer]
      rw [List.getElem?_map, ht]
      simp [hne]
    · intro heq
      simp only [TodoApp.todoReducer]
      rw [List.getElem?_map, ht]
      simp [heq]

/-- C10 witness: toggling the only todo flips exactly its flag. -/
theorem c10_toggle_frame_witness :
    (TodoApp.todoReducer [todoA] (TodoApp.TodoAction.toggle 1))[0]?
      = some ⟨1, "a", true, "General"⟩ :=
  ((c10_toggle_frame [todoA] 1).2.2 0 todoA rfl).2 rfl

/-- C5: every store state reachable through the app's ADD / DELETE /
TOGGLE / REORDER operations (ADD gated by the spec-modelled duplicate-text
check of the form, REORDER carrying a reordering of displayed records —
see `TodoApp.ReachableTodos`) has no two todos with case-insensitively
equal text. -/
theorem c5_unique_texts (s : List TodoApp.Todo) (h : TodoApp.ReachableTodos s) :
    TodoApp.UniqueTexts s := by
  induction h with
  | init => exact List.Pairwise.nil
  | add s id text cat hs ih =>
    unfold TodoApp.addTodoGuarded
    split
    · exact ih
    · rename_i hguard
      simp only [TodoApp.todoReducer]
      unfold TodoApp.UniqueTexts at ih ⊢
      rw [List.pairwise_append]
      refine ⟨ih, List.pairwise_singleton _ _, ?_⟩
      intro a ha b hb
      rw [List.mem_singleton] at hb
      subst hb
      intro hEq
      apply hguard
      rw [List.any_eq_true]
      exact ⟨a, ha, by rw [beq_iff_eq]; exact hEq⟩
  | del s id hs ih =>
    exact List.Pairwise.sublist (List.filter_sublist _) ih
  | toggle s id hs ih =>
    simp only [TodoApp.todoReducer]
    unfold TodoApp.UniqueTexts at ih ⊢
    rw [List.pairwise_map]
    refine ih.imp ?_
    intro a b hab
    have ha : ((if a.id = id then { a with completed := !a.completed } else a) :
        TodoApp.Todo).text = a.text := by
      split <;> rfl
    have hb : ((if b.id = id then { b with completed := !b.completed } else b) :
        TodoApp.Todo).text = b.text := by
      split <;> rfl
    rw [ha, hb]
    exact hab
  | reorder s p l hs hperm hsub ih =>
    show TodoApp.UniqueTexts p
    have hsymm : ∀ {x y : TodoApp.Todo},
        lowerStr x.text ≠ lowerStr y.text → lowerStr y.text ≠ lowerStr x.text :=
      fun hxy e => hxy e.symm
    exact (hperm.pairwise_iff hsymm).mpr (List.Pairwise.sublist hsub ih)

/-- C5 witness: the invariant at a concrete reachable state. -/
theorem c5_unique_texts_witness :
    TodoApp.UniqueTexts (TodoApp.addTodoGuarded [] 1 "Buy milk" "General") :=
  c5_unique_texts _
    (TodoApp.ReachableTodos.add [] 1 "Buy milk" "General" TodoApp.ReachableTodos.init)

section EmailLemmas

/-- Splitting at the first `'@'` decomposes the list around that `'@'`. -/
theorem splitAtSign_append (l : List Char) :
    ∀ a b, splitAtSign l = some (a, b) → l = a ++ '@' :: b := by
  induction l with
  | nil => intro a b h; simp [splitAtSign] at h
  | cons c cs ih =>
    intro a b h
    by_cases hc : c = '@'
    · subst hc
      simp [splitAtSign] at h
      obtain ⟨ha, hb⟩ := h
      subst ha
      subst hb
      rfl
    · cases hsp : splitAtSign cs with
      | none => simp [splitAtSign, hc, hsp] at h
      | some ab =>
        obtain ⟨a2, b2⟩ := ab
        simp [splitAtSign, hc, hsp] at h
        obtain ⟨ha, hb⟩ := h
        subst ha
        subst hb
        rw [ih a2 b2 hsp]
        rfl

/-- A domain accepted by `domainOk` is in the character class and splits
around an interior `'.'`. -/
theorem domainOk_split (rest : List Char) (h : domainOk rest = true) :
    rest.all emailChar = true
      ∧ ∃ m t, rest = m ++ '.' :: t ∧ m ≠ [] ∧ t ≠ [] := by
  unfold domainOk at h
  rw [Bool.and_eq_true] at h
  obtain ⟨hall, hany⟩ := h
  refine ⟨hall, ?_⟩
  rw [List.any_eq_true] at hany
  obtain ⟨i, hmem, hcond⟩ := hany
  rw [Bool.and_eq_true, Bool.and_eq_true] at hcond
  obtain ⟨⟨h0, h1⟩, hdot⟩ := hcond
  rw [decide_eq_true_eq] at h0 h1
  have hil : i < rest.length := by omega
  have hget : rest.getD i ' ' = rest[i] := List.getD_eq_getElem rest ' ' hil
  rw [hget, beq_iff_eq] at hdot
  refine ⟨rest.take i, rest.drop (i + 1), ?_, ?_, ?_⟩
  · conv_lhs => rw [← List.take_append_drop i rest]
    rw [List.drop_eq_getElem_cons hil, hdot]
  · intro hnil
    have hlt : (rest.take i).length = i := by
      rw [List.length_take]
      omega
    rw [hnil] at hlt
    simp at hlt
    omega
  · intro hnil
    have hld : (rest.drop (i + 1)).length = rest.length - (i + 1) := List.length_drop _ _
    rw [hnil] at hld
    simp at hld
    omega

end EmailLemmas

/-- C9: the email validation rejects `"not-an-email"` and accepts
`"a@b.com"`; moreover every accepted string has the shape
`local@domain.tld` — a non-empty part before one `'@'`, then a domain with
an interior `'.'` — and contains no whitespace anywhere. -/
theorem c9_email_pattern :
    isValidEmail "not-an-email" = false
    ∧ isValidEmail "a@b.com" = true
    ∧ ∀ s : String, isValidEmail s = true →
        s.toList.all (fun c => !c.isWhitespace) = true
        ∧ ∃ lo m t : List Char,
            s.toList = lo ++ '@' :: (m ++ '.' :: t) ∧ lo ≠ [] ∧ m ≠ [] ∧ t ≠ [] := by
  refine ⟨by decide, by decide, ?_⟩
  intro s h
  unfold isValidEmail at h
  cases hsp : splitAtSign s.toList with
  | none => rw [hsp] at h; cases h
  | some ab =>
    obtain ⟨lo, rest⟩ := ab
    rw [hsp] at h
    rw [Bool.and_eq_true, Bool.and_eq_true] at h
    obtain ⟨⟨hne, hloall⟩, hdom⟩ := h
    have hsplit := splitAtSign_append s.toList lo rest hsp
    obtain ⟨hrestall, m, t, hmt, hm, ht⟩ := domainOk_split rest hdom
    have hchar : ∀ c, emailChar c = true → (!c.isWhitespace) = true := by
      intro c hc
      rw [emailChar, Bool.and_eq_true] at hc
      exact hc.1
    constructor
    · rw [hsplit]
      rw [List.all_append, Bool.and_eq_true]
      constructor
      · rw [List.all_eq_true] at hloall ⊢
        intro c hcm
        exact hchar c (hloall c hcm)
      · rw [List.all_cons, Bool.and_eq_true]
        refine ⟨by decide, ?_⟩
        rw [List.all_eq_true] at hrestall ⊢
        intro c hcm
        exact hchar c (hrestall c hcm)
    · refine ⟨lo, m, t, by rw [hsplit, hmt], ?_, hm, ht⟩
      intro hnil
      subst hnil
      simp at hne

/-- C9 witness: the accepted shape at the concrete accepted input. -/
theorem c9_email_pattern_witness :
    "a@b.com".toList.all (fun c => !c.isWhitespace) = true
    ∧ ∃ lo m t : List Char,
        "a@b.com".toList = lo ++ '@' :: (m ++ '.' :: t) ∧ lo ≠ [] ∧ m ≠ [] ∧ t ≠ [] :=
  c9_email_pattern.2.2 "a@b.com" c9_email_pattern.2.1
